import Mathlib

/-!
# health-wealth dashboard (`apexplanet/task5.js`)

A shallow embedding of the dashboard script: the persistence helpers of `Utils`,
the section switcher of `Navigation`, the `Theme` toggle, the `Metrics` tracker and
the daily tip of `ContentDisplay`, followed by the properties proved about them.

Conventions of the embedding.

* JavaScript numbers are exact rationals (`Rat`); rounding of IEEE doubles is not modelled.
* JavaScript strings are `String`s (sequences of Unicode scalar values).
* A computation that may throw returns `Except JSError _`.
* The host objects the script talks to (`localStorage`, `classList`, `JSON`,
  `Math.random`, `Date`) are modelled explicitly; random draws and the clock are
  arguments of the functions that consult them.
* Console output is not part of the state.
-/

namespace HealthWealth

/-! ## JavaScript values that JSON can carry -/

mutual
/-- The values `JSON.parse` can return and `JSON.stringify` can serialise. -/
inductive JSValue where
  | null
  | bool (b : Bool)
  | num (q : Rat)
  | str (s : String)
  | arr (xs : JSList)
  | obj (ms : JSMembers)
/-- The elements of an array, in order. -/
inductive JSList where
  | nil
  | cons (v : JSValue) (tl : JSList)
/-- The own properties of an object, in order. -/
inductive JSMembers where
  | nil
  | cons (k : String) (v : JSValue) (tl : JSMembers)
end

deriving instance DecidableEq for JSValue, JSList, JSMembers

/-- An exception travelling up the call stack. -/
inductive JSError where
  | syntaxError
  deriving DecidableEq, Repr

/-- The statement `try { body } catch (e) { handler }`. -/
def tryCatch {α : Type} (body : Except JSError α) (handler : JSError → Except JSError α) :
    Except JSError α :=
  match body with
  | .ok a => .ok a
  | .error e => handler e

/-- The comparison `v === s` against a string. -/
def JSValue.strictEqString : JSValue → String → Bool
  | .str t, s => t == s
  | _, _ => false

/-- The comparison `v === null`. -/
def JSValue.isNull : JSValue → Bool
  | .null => true
  | _ => false

/-- Keys of a member list, in order. -/
def JSMembers.keys : JSMembers → List String
  | .nil => []
  | .cons k _ tl => k :: tl.keys

/-- Value bound to a key, if any. -/
def JSMembers.lookup (key : String) : JSMembers → Option JSValue
  | .nil => none
  | .cons k v tl => if k = key then some v else tl.lookup key

/-- Member list without the bindings of a key. -/
def JSMembers.erase (key : String) : JSMembers → JSMembers
  | .nil => .nil
  | .cons k v tl => if k = key then tl.erase key else .cons k v (tl.erase key)

/-- Object construction from the members of an object literal read left to right: a
repeated key keeps the place of its first occurrence and the value of its last. -/
def JSMembers.dedup : JSMembers → JSMembers
  | .nil => .nil
  | .cons k v tl =>
    match (JSMembers.dedup tl).lookup k with
    | some w => .cons k w ((JSMembers.dedup tl).erase k)
    | none => .cons k v (JSMembers.dedup tl)

/-! ## `JSON.stringify` -/

/-- Least `k` with `d ∣ 10 ^ k`, searched up to `d`: the number of decimal places of a
fraction with denominator `d`, when its decimal expansion is finite. -/
def decimalScale (d : Nat) : Option Nat :=
  (List.range (d + 1)).find? (fun k => 10 ^ k % d == 0)

/-- Exactly `k` decimal digits of `n`, with leading zeros. -/
def fracDigits : Nat → Nat → List Char
  | 0, _ => []
  | k + 1, n => Nat.digitChar (n / 10 ^ k) :: fracDigits k (n % 10 ^ k)

/-- The numeral of a number. Numerals are written positionally (the host switches to
exponent notation for very large and very small magnitudes, denoting the same number).
A rational without a finite decimal expansion is no IEEE double and has no numeral; it
is serialised like the non-finite numbers, as `null`. -/
def renderNum (q : Rat) : List Char :=
  match decimalScale q.den with
  | none => ['n', 'u', 'l', 'l']
  | some k =>
    let m := q.num.natAbs * (10 ^ k / q.den)
    (if q.num < 0 then ['-'] else []) ++ Nat.toDigits 10 (m / 10 ^ k) ++
      (if k = 0 then [] else '.' :: fracDigits k (m % 10 ^ k))

/-- Lower-case hexadecimal digit. -/
def hexDigitChar (n : Nat) : Char :=
  if n < 10 then Char.ofNat (48 + n) else Char.ofNat (87 + n)

/-- The text `JSON.stringify` emits for one character of a string. -/
def escapeChar (c : Char) : List Char :=
  if c = '"' then ['\\', '"']
  else if c = '\\' then ['\\', '\\']
  else if c = '\x08' then ['\\', 'b']
  else if c = '\x0c' then ['\\', 'f']
  else if c = '\n' then ['\\', 'n']
  else if c = '\r' then ['\\', 'r']
  else if c = '\t' then ['\\', 't']
  else if c.toNat < 32 then
    ['\\', 'u', '0', '0', hexDigitChar (c.toNat / 16), hexDigitChar (c.toNat % 16)]
  else [c]

/-- The body of a string literal, between the quotes. -/
def escapeChars : List Char → List Char
  | [] => []
  | c :: cs => escapeChar c ++ escapeChars cs

/-- A quoted string literal. -/
def renderString (s : String) : List Char :=
  '"' :: (escapeChars s.data ++ ['"'])

mutual
/-- The characters of `JSON.stringify v` (no indentation). -/
def render : JSValue → List Char
  | .null => ['n', 'u', 'l', 'l']
  | .bool true => ['t', 'r', 'u', 'e']
  | .bool false => ['f', 'a', 'l', 's', 'e']
  | .num q => renderNum q
  | .str s => renderString s
  | .arr xs => '[' :: renderElements xs
  | .obj ms => '\x7b' :: renderMembers ms
/-- The elements of an array and the closing bracket. -/
def renderElements : JSList → List Char
  | .nil => [']']
  | .cons v .nil => render v ++ [']']
  | .cons v (.cons w tl) => render v ++ ',' :: renderElements (.cons w tl)
/-- The members of an object and the closing brace. -/
def renderMembers : JSMembers → List Char
  | .nil => ['\x7d']
  | .cons k v .nil => renderString k ++ ':' :: (render v ++ ['\x7d'])
  | .cons k v (.cons l w tl) =>
    renderString k ++ ':' :: (render v ++ ',' :: renderMembers (.cons l w tl))
end

/-- The host function `JSON.stringify` on the values of `JSValue`. -/
def JSON.stringify (v : JSValue) : String :=
  String.mk (render v)

/-! ## `JSON.parse` -/

/-- JSON white space. -/
def isWs (c : Char) : Bool :=
  c = ' ' || c = '\t' || c = '\n' || c = '\r'

/-- Input without its leading white space. -/
def skipWs (cs : List Char) : List Char :=
  cs.dropWhile isWs

/-- Value of a run of decimal digits. -/
def digitsVal (ds : List Char) : Nat :=
  ds.foldl (fun acc c => acc * 10 + (c.toNat - 48)) 0

/-- Value of a hexadecimal digit. -/
def hexVal (c : Char) : Option Nat :=
  if c.isDigit then some (c.toNat - 48)
  else if 'a' ≤ c ∧ c ≤ 'f' then some (c.toNat - 87)
  else if 'A' ≤ c ∧ c ≤ 'F' then some (c.toNat - 55)
  else none

/-- Value of four hexadecimal digits. -/
def hex4 (a b c d : Char) : Option Nat :=
  match hexVal a, hexVal b, hexVal c, hexVal d with
  | some w, some x, some y, some z => some (((w * 16 + x) * 16 + y) * 16 + z)
  | _, _, _, _ => none

/-- The character a one-letter escape stands for. -/
def unescape (e : Char) : Option Char :=
  if e = '"' then some '"'
  else if e = '\\' then some '\\'
  else if e = '/' then some '/'
  else if e = 'b' then some '\x08'
  else if e = 'f' then some '\x0c'
  else if e = 'n' then some '\n'
  else if e = 'r' then some '\r'
  else if e = 't' then some '\t'
  else none

/-- Prepend a character to the string part of a parse result. -/
def consChar (c : Char) (r : Option (List Char × List Char)) : Option (List Char × List Char) :=
  match r with
  | some (s, rest) => some (c :: s, rest)
  | none => none

/-- The rest of a string literal after its opening quote: the characters it denotes and
the input after the closing quote. A surrogate pair of `\u` escapes denotes one
character; a lone surrogate escape denotes a string outside the model and is reported
as a failure. -/
def parseStringBody : Nat → List Char → Option (List Char × List Char)
  | 0, _ => none
  | _ + 1, [] => none
  | fuel + 1, c :: r =>
    if c = '"' then some ([], r)
    else if c = '\\' then
      match r with
      | [] => none
      | e :: r1 =>
        if e = 'u' then
          match r1 with
          | h1 :: h2 :: h3 :: h4 :: r2 =>
            match hex4 h1 h2 h3 h4 with
            | none => none
            | some n =>
              if 0xD800 ≤ n ∧ n < 0xDC00 then
                match r2 with
                | b :: u :: l1 :: l2 :: l3 :: l4 :: r3 =>
                  if b = '\\' ∧ u = 'u' then
                    match hex4 l1 l2 l3 l4 with
                    | none => none
                    | some m =>
                      if 0xDC00 ≤ m ∧ m < 0xE000 then
                        consChar (Char.ofNat (0x10000 + (n - 0xD800) * 0x400 + (m - 0xDC00)))
                          (parseStringBody fuel r3)
                      else none
                  else none
                | _ => none
              else if 0xDC00 ≤ n ∧ n < 0xE000 then none
              else consChar (Char.ofNat n) (parseStringBody fuel r2)
          | _ => none
        else
          match unescape e with
          | some ch => consChar ch (parseStringBody fuel r1)
          | none => none
    else if c.toNat < 32 then none
    else consChar c (parseStringBody fuel r)

/-- A string literal after its opening quote. -/
def parseString (cs : List Char) : Option (List Char × List Char) :=
  parseStringBody cs.length cs

/-- The exponent part of a numeral, if present: its value and the input after it. -/
def parseExponent (cs : List Char) : Option (Int × List Char) :=
  match cs with
  | [] => some (0, [])
  | e :: r =>
    if e = 'e' ∨ e = 'E' then
      match r with
      | [] => none
      | s :: r1 =>
        if s = '-' then
          if r1.takeWhile Char.isDigit = [] then none
          else some (-(digitsVal (r1.takeWhile Char.isDigit) : Int), r1.dropWhile Char.isDigit)
        else if s = '+' then
          if r1.takeWhile Char.isDigit = [] then none
          else some ((digitsVal (r1.takeWhile Char.isDigit) : Int), r1.dropWhile Char.isDigit)
        else
          if r.takeWhile Char.isDigit = [] then none
          else some ((digitsVal (r.takeWhile Char.isDigit) : Int), r.dropWhile Char.isDigit)
    else some (0, cs)

/-- The fraction part of a numeral, if present: its digits and the input after it. -/
def parseFraction (cs : List Char) : Option (List Char × List Char) :=
  match cs with
  | [] => some ([], [])
  | d :: r =>
    if d = '.' then
      if r.takeWhile Char.isDigit = [] then none
      else some (r.takeWhile Char.isDigit, r.dropWhile Char.isDigit)
    else some ([], cs)

/-- An unsigned numeral: integer digits without a superfluous leading zero, an optional
fraction and an optional exponent. -/
def parseUnsigned (cs : List Char) : Option (Rat × List Char) :=
  let ip := cs.takeWhile Char.isDigit
  if ip = [] then none
  else if ip.head? = some '0' ∧ 1 < ip.length then none
  else
    match parseFraction (cs.dropWhile Char.isDigit) with
    | none => none
    | some (fp, r) =>
      match parseExponent r with
      | none => none
      | some (e, r1) =>
        some ((digitsVal (ip ++ fp) : Rat) / (10 : Rat) ^ fp.length * (10 : Rat) ^ e, r1)

/-- A numeral with its optional sign. -/
def parseNumber (cs : List Char) : Option (JSValue × List Char) :=
  match cs with
  | [] => none
  | c :: r =>
    if c = '-' then
      match parseUnsigned r with
      | some (q, r1) => some (.num (-q), r1)
      | none => none
    else
      match parseUnsigned cs with
      | some (q, r1) => some (.num q, r1)
      | none => none

/-- Input after a given literal word, if the input starts with it. -/
def expectWord : List Char → List Char → Option (List Char)
  | [], cs => some cs
  | _ :: _, [] => none
  | w :: ws, c :: cs => if w = c then expectWord ws cs else none

mutual
/-- One JSON value at the head of the input (leading white space already skipped), and
the input after it. The first argument bounds the nesting and the number of elements. -/
def parseValue : Nat → List Char → Option (JSValue × List Char)
  | 0, _ => none
  | _ + 1, [] => none
  | fuel + 1, c :: r =>
    if c = '"' then
      match parseString r with
      | some (s, r1) => some (.str (String.mk s), r1)
      | none => none
    else if c = '[' then
      match skipWs r with
      | [] => none
      | d :: r1 =>
        if d = ']' then some (.arr .nil, r1)
        else
          match parseElements fuel (d :: r1) with
          | some (xs, r2) => some (.arr xs, r2)
          | none => none
    else if c = '\x7b' then
      match skipWs r with
      | [] => none
      | d :: r1 =>
        if d = '\x7d' then some (.obj .nil, r1)
        else
          match parseMembers fuel (d :: r1) with
          | some (ms, r2) => some (.obj ms.dedup, r2)
          | none => none
    else if c = 'n' then
      match expectWord ['u', 'l', 'l'] r with
      | some r1 => some (.null, r1)
      | none => none
    else if c = 't' then
      match expectWord ['r', 'u', 'e'] r with
      | some r1 => some (.bool true, r1)
      | none => none
    else if c = 'f' then
      match expectWord ['a', 'l', 's', 'e'] r with
      | some r1 => some (.bool false, r1)
      | none => none
    else parseNumber (c :: r)
/-- The elements of a non-empty array up to and including the closing bracket. -/
def parseElements : Nat → List Char → Option (JSList × List Char)
  | 0, _ => none
  | fuel + 1, cs =>
    match parseValue fuel cs with
    | none => none
    | some (v, r) =>
      match skipWs r with
      | [] => none
      | d :: r1 =>
        if d = ']' then some (.cons v .nil, r1)
        else if d = ',' then
          match parseElements fuel (skipWs r1) with
          | some (xs, r2) => some (.cons v xs, r2)
          | none => none
        else none
/-- The members of a non-empty object up to and including the closing brace. -/
def parseMembers : Nat → List Char → Option (JSMembers × List Char)
  | 0, _ => none
  | _ + 1, [] => none
  | fuel + 1, q :: r =>
    if q = '"' then
      match parseString r with
      | none => none
      | some (k, r1) =>
        match skipWs r1 with
        | [] => none
        | colon :: r2 =>
          if colon = ':' then
            match parseValue fuel (skipWs r2) with
            | none => none
            | some (v, r3) =>
              match skipWs r3 with
              | [] => none
              | d :: r4 =>
                if d = '\x7d' then some (.cons (String.mk k) v .nil, r4)
                else if d = ',' then
                  match parseMembers fuel (skipWs r4) with
                  | some (ms, r5) => some (.cons (String.mk k) v ms, r5)
                  | none => none
                else none
          else none
    else none
end

/-- The host function `JSON.parse`: one value surrounded by optional white space, or a
`SyntaxError`. Two steps of the recursion consume at least one character, so twice the
length of the text bounds its depth. -/
def JSON.parse (text : String) : Except JSError JSValue :=
  match parseValue (2 * text.data.length + 1) (skipWs text.data) with
  | some (v, r) => if skipWs r = [] then .ok v else .error .syntaxError
  | none => .error .syntaxError

/-! ## Host objects: `classList`, `localStorage`, `Date` -/

/-- The method `classList.contains`. -/
def classContains (cl : List String) (token : String) : Bool :=
  cl.contains token

/-- The method `classList.add`. -/
def classAdd (cl : List String) (token : String) : List String :=
  if cl.contains token then cl else cl ++ [token]

/-- The method `classList.remove`. -/
def classRemove (cl : List String) (token : String) : List String :=
  cl.filter (fun t => t != token)

/-- The method `classList.toggle`. -/
def classToggle (cl : List String) (token : String) : List String :=
  if cl.contains token then classRemove cl token else cl ++ [token]

/-- Replacement inside an ordered set: the first occurrence of either token becomes the
new token and every other occurrence of both goes. -/
def replaceFirst (old new : String) : List String → List String
  | [] => []
  | t :: ts =>
    if t = old ∨ t = new then new :: ts.filter (fun u => u != old && u != new)
    else t :: replaceFirst old new ts

/-- The method `classList.replace`: nothing happens when the old token is absent. -/
def classReplace (cl : List String) (old new : String) : List String :=
  if cl.contains old then replaceFirst old new cl else cl

/-- The origin's `localStorage`: its key-value pairs, and the `setItem` calls made so
far (oldest first). Quota errors are not modelled. -/
structure Storage where
  items : List (String × String)
  writes : List (String × String)
  deriving DecidableEq, Repr

/-- A storage nobody wrote to. -/
def Storage.empty : Storage :=
  ⟨[], []⟩

/-- The method `localStorage.getItem`; `none` is the `null` of an absent key. -/
def Storage.getItem (st : Storage) (key : String) : Option String :=
  st.items.lookup key

/-- The method `localStorage.setItem`. -/
def Storage.setItem (st : Storage) (key value : String) : Storage :=
  { items := (key, value) :: st.items.filter (fun p => p.1 != key)
    writes := st.writes ++ [(key, value)] }

/-- The fields of a `Date` the script reads: `getFullYear()`, `getMonth()` (from 0)
and `getDate()`. -/
structure JSDate where
  fullYear : Int
  month : Nat
  date : Nat
  deriving DecidableEq, Repr

/-- The conversion `String(n)` of an integer. -/
def intToString (n : Int) : List Char :=
  (if n < 0 then ['-'] else []) ++ Nat.toDigits 10 n.natAbs

/-- The call `s.padStart(2, '0')`. -/
def padStart2 (s : List Char) : List Char :=
  List.replicate (2 - s.length) '0' ++ s

/-! ## 1. Utility module -/

/-- Body of `Utils.getTodayDateString`, given the `Date` the clock returned. -/
def getTodayDateString (today : JSDate) : String :=
  let year := intToString today.fullYear
  let month := padStart2 (intToString ((today.month : Int) + 1))
  let day := padStart2 (intToString (today.date : Int))
  String.mk (year ++ '-' :: (month ++ '-' :: day))

/-- The toast element, and the durations of the hide callbacks `setTimeout` holds. -/
structure Toast where
  textContent : String
  classList : List String
  backgroundColor : String
  timers : List Nat
  deriving DecidableEq, Repr

/-- The callback `showToast` hands to `setTimeout`. -/
def hideToast (toast : Toast) : Toast :=
  { toast with classList := classRemove toast.classList "show", backgroundColor := "" }

/-- Body of `Utils.getFromLocalStorage(key, defaultValue)`. -/
def getFromLocalStorage (store : Storage) (key : String) (defaultValue : JSValue) :
    Except JSError JSValue :=
  let item := store.getItem key
  tryCatch
    (match item with
     | some text => if text ≠ "" then JSON.parse text else .ok defaultValue
     | none => .ok defaultValue)
    (fun _ => .ok defaultValue)

/-- Body of `Utils.saveToLocalStorage(key, data)`. -/
def saveToLocalStorage (store : Storage) (key : String) (data : JSValue) : Storage :=
  store.setItem key (JSON.stringify data)

/-! ## 2. Navigation module -/

/-- An element of the page: its `id` and its `classList`. -/
structure Element where
  id : String
  classList : List String
  deriving DecidableEq, Repr

/-- What `Navigation` works on: the elements of the document in tree order, the
positions of the elements in the node list `sections` captured when the module was
created, and `appMainContent.scrollTop`. -/
structure NavState where
  elements : List Element
  sections : List Nat
  scrollTop : Nat
  deriving DecidableEq, Repr

/-- The call `document.getElementById(id)`: position of the first element with that id.
An empty `id` attribute gives an element no id, so the empty string finds nothing. -/
def getElementById (elements : List Element) (id : String) : Option Nat :=
  if id = "" then none else elements.findIdx? (fun e => e.id == id)

/-- The call `document.querySelectorAll('.dashboard-section')`. -/
def querySections (elements : List Element) : List Nat :=
  (List.range elements.length).filter (fun i =>
    match elements[i]? with
    | some e => classContains e.classList "dashboard-section"
    | none => false)

/-- Whether the element at a position carries `active-section`. -/
def isActive (elements : List Element) (i : Nat) : Bool :=
  match elements[i]? with
  | some e => classContains e.classList "active-section"
  | none => false

/-- The callback `section => section.classList.remove('active-section')`. -/
def deactivate (e : Element) : Element :=
  { e with classList := classRemove e.classList "active-section" }

/-- Body of `Navigation.showSection(id)`. -/
def showSection (st : NavState) (id : String) : NavState :=
  let cleared := st.sections.foldl (fun els i => els.modify deactivate i) st.elements
  match getElementById cleared id with
  | some j =>
    { st with
      elements := cleared.modify (fun e => { e with classList := classAdd e.classList "active-section" }) j
      scrollTop := 0 }
  | none => { st with elements := cleared }

/-! ## 3. Theme module -/

/-- What `Theme` works on: `body.classList`, the class list of the icon inside the theme
switcher, and the storage. -/
structure ThemeState where
  body : List String
  icon : List String
  localStorage : Storage
  deriving DecidableEq, Repr

/-- Body of `Theme.applySavedTheme`. -/
def applySavedTheme (st : ThemeState) : Except JSError ThemeState :=
  match getFromLocalStorage st.localStorage "theme" .null with
  | .error e => .error e
  | .ok savedTheme =>
    if savedTheme.strictEqString "dark-theme" then
      .ok { st with
            body := classAdd st.body "dark-theme"
            icon := classReplace st.icon "fa-moon" "fa-sun" }
    else .ok st

/-- Body of `Theme.toggleTheme`. -/
def toggleTheme (st : ThemeState) : ThemeState :=
  let body := classToggle st.body "dark-theme"
  let isDark := classContains body "dark-theme"
  let store := saveToLocalStorage st.localStorage "theme" (.str (if isDark then "dark-theme" else ""))
  { body := body
    icon := classReplace st.icon (if isDark then "fa-moon" else "fa-sun")
              (if isDark then "fa-sun" else "fa-moon")
    localStorage := store }

/-! ## 4. Dashboard metrics module -/

/-- The array `healthTips`. -/
def healthTips : List String :=
  [ "Drink at least 8 glasses of water a day.",
    "Aim for 30 minutes of moderate exercise daily.",
    "Eat a variety of fruits and vegetables.",
    "Get 7-9 hours of quality sleep each night.",
    "Practice mindfulness for mental well-being.",
    "Limit processed foods and sugary drinks.",
    "Stretch regularly to improve flexibility.",
    "Walk whenever you can instead of driving.",
    "Find a hobby that helps you relax and de-stress.",
    "Prioritize whole grains in your diet." ]

/-- What an assignment to `textContent` leaves in the element. -/
inductive TextContent where
  | text (s : String)
  | notModelled
  deriving DecidableEq, Repr

/-- The assignment `textContent = healthTips[tipIndex]`. A number selects an element
when it is one of the positions and `undefined` (shown as the empty text) otherwise, and
so do `null` and the booleans; a string, array or object is converted to a property name
and can reach `length` or an inherited member, which is outside the model. -/
def healthTipText : JSValue → TextContent
  | .num q =>
    if q.den = 1 ∧ 0 ≤ q.num then .text (healthTips.getD q.num.toNat "") else .text ""
  | .null => .text ""
  | .bool _ => .text ""
  | _ => .notModelled

/-- What `ContentDisplay` works on: the text of the tip element and the storage. -/
structure ContentState where
  healthTipContent : TextContent
  localStorage : Storage
  deriving DecidableEq, Repr

/-- Body of `ContentDisplay.updateHealthTip`, given the `Date` of the clock and the
result `r` of `Math.random()` (consulted only when a new tip is drawn). The final value
of the local variable `tipIndex` is returned next to the state. -/
def updateHealthTip (today : JSDate) (r : Rat) (st : ContentState) :
    Except JSError (JSValue × ContentState) :=
  let todayDate := getTodayDateString today
  match getFromLocalStorage st.localStorage "dailyTipIndex" .null with
  | .error e => .error e
  | .ok tipIndex =>
    match getFromLocalStorage st.localStorage "lastTipDate" .null with
    | .error e => .error e
    | .ok lastTipDate =>
      if !(lastTipDate.strictEqString todayDate) || tipIndex.isNull then
        let newIndex : JSValue := .num ((⌊r * (healthTips.length : Rat)⌋ : Int) : Rat)
        let store1 := saveToLocalStorage st.localStorage "dailyTipIndex" newIndex
        let store2 := saveToLocalStorage store1 "lastTipDate" (.str todayDate)
        .ok (newIndex, { healthTipContent := healthTipText newIndex, localStorage := store2 })
      else
        .ok (tipIndex, { st with healthTipContent := healthTipText tipIndex })

/-! ## Auxiliary definitions of the statements and proofs -/

/-- What may follow a value in the output of `JSON.stringify`: the end of the text, a
comma, or a closing bracket or brace. -/
def Delimited (rest : List Char) : Prop :=
  ∀ c, rest.head? = some c → c = ',' ∨ c = ']' ∨ c = '\x7d'

/-- The facts about the decimal digits of a number that the parser relies on. -/
structure DigitsOf (n : Nat) (l : List Char) : Prop where
  allDigits : ∀ c ∈ l, c.isDigit = true
  value : digitsVal l = n
  nonempty : l ≠ []
  leading : n ≠ 0 → l.head? ≠ some '0'
  zero : n = 0 → l = ['0']
  noMinus : l.head? ≠ some '-'

mutual
/-- Whether a value is JSON-serializable in the model: every number in it has a finite
decimal expansion and no object in it repeats a key. -/
def JSValue.isSerializable : JSValue → Bool
  | .null => true
  | .bool _ => true
  | .num q => (decimalScale q.den).isSome
  | .str _ => true
  | .arr xs => xs.isSerializable
  | .obj ms => decide ms.keys.Nodup && ms.isSerializable
/-- Whether every element is serializable. -/
def JSList.isSerializable : JSList → Bool
  | .nil => true
  | .cons v tl => v.isSerializable && tl.isSerializable
/-- Whether every member value is serializable. -/
def JSMembers.isSerializable : JSMembers → Bool
  | .nil => true
  | .cons _ v tl => v.isSerializable && tl.isSerializable
end

mutual
/-- Number of nodes of a value: a bound on the fuel its parse needs. -/
def JSValue.size : JSValue → Nat
  | .null => 1
  | .bool _ => 1
  | .num _ => 1
  | .str _ => 1
  | .arr xs => 1 + xs.size
  | .obj ms => 1 + ms.size
/-- Number of nodes of a list of elements. -/
def JSList.size : JSList → Nat
  | .nil => 0
  | .cons v tl => 1 + v.size + tl.size
/-- Number of nodes of a list of members. -/
def JSMembers.size : JSMembers → Nat
  | .nil => 0
  | .cons _ v tl => 1 + v.size + tl.size
end

/-- The characters a serialised value can start with. -/
def ValueStart (c : Char) : Prop :=
  c = '"' ∨ c = '[' ∨ c = '\x7b' ∨ c = 'n' ∨ c = 't' ∨ c = 'f' ∨ c = '-' ∨ c.isDigit = true

/-- The state `updateHealthTip` leaves when it draws a new tip. -/
def redrawn (today : JSDate) (r : Rat) (st : ContentState) : ContentState :=
  { healthTipContent := healthTipText (.num ((⌊r * (healthTips.length : Rat)⌋ : Int) : Rat))
    localStorage :=
      saveToLocalStorage
        (saveToLocalStorage st.localStorage "dailyTipIndex"
          (.num ((⌊r * (healthTips.length : Rat)⌋ : Int) : Rat)))
        "lastTipDate" (.str (getTodayDateString today)) }

/-! ## Lemmas on the host objects -/

theorem lookup_filter_ne (k k2 : String) (h : k2 ≠ k) (ps : List (String × String)) :
    List.lookup k2 (List.filter (fun p => p.1 != k) ps) = List.lookup k2 ps := by
  induction ps with
  | nil => rfl
  | cons p ps ih =>
    obtain ⟨a, b⟩ := p
    by_cases hak : a = k
    · subst hak
      have hne : (k2 == a) = false := by simpa using h
      simp [List.filter, List.lookup, hne, ih]
    · have hf : List.filter (fun p => p.1 != k) ((a, b) :: ps)
          = (a, b) :: List.filter (fun p => p.1 != k) ps := by
        have hb : (a != k) = true := bne_iff_ne.mpr hak
        simp only [List.filter, hb]
      rw [hf]
      by_cases ha2 : k2 = a
      · subst ha2
        simp [List.lookup]
      · have : (k2 == a) = false := by simpa using ha2
        simp [List.lookup, this, ih]

theorem getItem_setItem (st : Storage) (k v k2 : String) :
    (st.setItem k v).getItem k2 = if k2 = k then some v else st.getItem k2 := by
  unfold Storage.setItem Storage.getItem
  by_cases h : k2 = k
  · subst h
    simp [List.lookup]
  · have hne : (k2 == k) = false := by simpa using h
    simp only [List.lookup, hne, if_neg h]
    exact lookup_filter_ne k k2 h st.items

theorem getFromLocalStorage_ok (st : Storage) (k : String) (d : JSValue) :
    ∃ v, getFromLocalStorage st k d = .ok v := by
  unfold getFromLocalStorage tryCatch
  cases st.getItem k with
  | none => exact ⟨d, rfl⟩
  | some text =>
    by_cases h : text = ""
    · simp [h]
    · cases hp : JSON.parse text with
      | ok v => exact ⟨v, by simp [h, hp]⟩
      | error e => exact ⟨d, by simp [h, hp]⟩

theorem classContains_iff (cl : List String) (t : String) :
    classContains cl t = true ↔ t ∈ cl := by
  simp [classContains]

theorem classAdd_eq (cl : List String) (t : String) :
    classAdd cl t = if t ∈ cl then cl else cl ++ [t] := by
  simp [classAdd]

theorem mem_classAdd (cl : List String) (t : String) : t ∈ classAdd cl t := by
  rw [classAdd_eq]
  by_cases h : t ∈ cl
  · simp [h]
  · simp [h]

theorem classAdd_idem (cl : List String) (t : String) :
    classAdd (classAdd cl t) t = classAdd cl t := by
  rw [classAdd_eq (classAdd cl t)]
  simp [mem_classAdd]

theorem not_mem_replaceFirst (old new : String) (h : old ≠ new) (l : List String) :
    old ∉ replaceFirst old new l := by
  induction l with
  | nil => simp [replaceFirst]
  | cons t ts ih =>
    unfold replaceFirst
    by_cases ht : t = old ∨ t = new
    · simp [ht, h]
    · simp only [ht, if_false, List.mem_cons, not_or]
      push_neg at ht
      exact ⟨fun e => ht.1 e.symm, ih⟩

theorem classReplace_eq (cl : List String) (old new : String) :
    classReplace cl old new = if old ∈ cl then replaceFirst old new cl else cl := by
  simp [classReplace]

theorem classReplace_idem (cl : List String) (old new : String) (h : old ≠ new) :
    classReplace (classReplace cl old new) old new = classReplace cl old new := by
  rw [classReplace_eq (classReplace cl old new)]
  by_cases hc : old ∈ cl
  · have h1 : classReplace cl old new = replaceFirst old new cl := by
      rw [classReplace_eq, if_pos hc]
    rw [h1, if_neg (not_mem_replaceFirst old new h cl)]
  · have h1 : classReplace cl old new = cl := by
      rw [classReplace_eq, if_neg hc]
    rw [h1, if_neg hc]

/-! ## Round trip of string literals -/

theorem hexVal_hexDigitChar : ∀ d, d < 16 → hexVal (hexDigitChar d) = some d := by
  decide

theorem consChar_some (c : Char) (s rest : List Char) :
    consChar c (some (s, rest)) = some (c :: s, rest) := rfl

theorem char_eq_ofNat_toNat (c : Char) : Char.ofNat c.toNat = c := by
  simp

theorem parseStringBody_control : ∀ n, n < 32 → ∀ (fuel : Nat) (tail : List Char),
    parseStringBody (fuel + 1) (escapeChar (Char.ofNat n) ++ tail)
      = consChar (Char.ofNat n) (parseStringBody fuel tail) := by
  intro n hn fuel tail
  interval_cases n <;> rfl

theorem parseStringBody_escapeChar (c : Char) (fuel : Nat) (tail : List Char) :
    parseStringBody (fuel + 1) (escapeChar c ++ tail) = consChar c (parseStringBody fuel tail) := by
  by_cases hlt : c.toNat < 32
  · have h := parseStringBody_control c.toNat hlt fuel tail
    rwa [char_eq_ofNat_toNat] at h
  · by_cases h1 : c = '"'
    · subst h1; rfl
    · by_cases h2 : c = '\\'
      · subst h2; rfl
      · have e : escapeChar c = [c] := by
          unfold escapeChar
          rw [if_neg h1, if_neg h2]
          have h3 : c ≠ '\x08' := by rintro rfl; exact hlt (by decide)
          have h4 : c ≠ '\x0c' := by rintro rfl; exact hlt (by decide)
          have h5 : c ≠ '\n' := by rintro rfl; exact hlt (by decide)
          have h6 : c ≠ '\r' := by rintro rfl; exact hlt (by decide)
          have h7 : c ≠ '\t' := by rintro rfl; exact hlt (by decide)
          rw [if_neg h3, if_neg h4, if_neg h5, if_neg h6, if_neg h7, if_neg hlt]
        rw [e]
        show parseStringBody (fuel + 1) (c :: tail) = _
        conv_lhs => unfold parseStringBody
        simp only [if_neg h1, if_neg h2, if_neg hlt]

theorem length_le_escapeChars (s : List Char) : s.length ≤ (escapeChars s).length := by
  induction s with
  | nil => simp [escapeChars]
  | cons c cs ih =>
    have h : 1 ≤ (escapeChar c).length := by
      unfold escapeChar
      split_ifs <;> simp
    simp only [escapeChars, List.length_append, List.length_cons]
    omega

theorem parseStringBody_escapeChars (s : List Char) :
    ∀ (fuel : Nat) (rest : List Char), s.length < fuel →
      parseStringBody fuel (escapeChars s ++ '"' :: rest) = some (s, rest) := by
  induction s with
  | nil =>
    intro fuel rest h
    obtain ⟨f, rfl⟩ : ∃ f, fuel = f + 1 := ⟨fuel - 1, by simp at h; omega⟩
    simp [escapeChars, parseStringBody]
  | cons c cs ih =>
    intro fuel rest h
    obtain ⟨f, rfl⟩ : ∃ f, fuel = f + 1 := ⟨fuel - 1, by simp at h; omega⟩
    have hf : cs.length < f := by simp at h; omega
    simp only [escapeChars, List.append_assoc]
    rw [parseStringBody_escapeChar, ih f rest hf, consChar_some]

theorem parseString_renderString (s : String) (rest : List Char) :
    parseString (escapeChars s.data ++ '"' :: rest) = some (s.data, rest) := by
  unfold parseString
  apply parseStringBody_escapeChars
  have := length_le_escapeChars s.data
  simp only [List.length_append, List.length_cons]
  omega

/-! ## Round trip of numerals -/

theorem delimited_nil : Delimited [] := by
  intro c h
  simp at h

theorem delimited_cons (c : Char) (cs : List Char) (h : c = ',' ∨ c = ']' ∨ c = '\x7d') :
    Delimited (c :: cs) := by
  intro d hd
  simp at hd
  subst hd
  exact h

theorem digitChar_isDigit : ∀ d, d < 10 → (Nat.digitChar d).isDigit = true := by
  decide

theorem digitChar_val : ∀ d, d < 10 → (Nat.digitChar d).toNat - 48 = d := by
  decide

theorem digitChar_ne_zero : ∀ d, d < 10 → d ≠ 0 → Nat.digitChar d ≠ '0' := by
  decide

theorem digitChar_ne_minus : ∀ d, d < 10 → Nat.digitChar d ≠ '-' := by
  decide

theorem digitsVal_foldl (l : List Char) : ∀ init : Nat,
    l.foldl (fun acc c => acc * 10 + (c.toNat - 48)) init = init * 10 ^ l.length + digitsVal l := by
  induction l with
  | nil => intro init; simp [digitsVal]
  | cons c cs ih =>
    intro init
    unfold digitsVal
    simp only [List.foldl_cons, List.length_cons]
    rw [ih, ih (0 * 10 + (c.toNat - 48))]
    ring

theorem digitsVal_append (a b : List Char) :
    digitsVal (a ++ b) = digitsVal a * 10 ^ b.length + digitsVal b := by
  unfold digitsVal
  rw [List.foldl_append, digitsVal_foldl]
  rfl

theorem digitsVal_singleton (c : Char) : digitsVal [c] = c.toNat - 48 := by
  simp [digitsVal]

theorem toDigitsCore_acc (fuel : Nat) : ∀ (n : Nat) (ds : List Char),
    Nat.toDigitsCore 10 fuel n ds = Nat.toDigitsCore 10 fuel n [] ++ ds := by
  induction fuel with
  | zero => intro n ds; simp [Nat.toDigitsCore]
  | succ f ih =>
    intro n ds
    simp only [Nat.toDigitsCore]
    by_cases h : n / 10 = 0
    · simp [h]
    · simp only [h, if_false]
      rw [ih (n / 10) (Nat.digitChar (n % 10) :: ds), ih (n / 10) [Nat.digitChar (n % 10)]]
      simp

theorem toDigitsCore_spec (fuel : Nat) : ∀ n, n < fuel →
    DigitsOf n (Nat.toDigitsCore 10 fuel n []) := by
  induction fuel with
  | zero => intro n h; omega
  | succ f ih =>
    intro n hn
    simp only [Nat.toDigitsCore]
    by_cases h : n / 10 = 0
    · have hlt : n < 10 := by omega
      have hmod : n % 10 = n := Nat.mod_eq_of_lt hlt
      simp only [h, if_true, hmod]
      refine ⟨?_, ?_, ?_, ?_, ?_, ?_⟩
      · intro c hc
        simp at hc
        subst hc
        exact digitChar_isDigit n hlt
      · rw [digitsVal_singleton]
        exact digitChar_val n hlt
      · simp
      · intro h0
        simp only [List.head?_cons, ne_eq, Option.some.injEq]
        exact digitChar_ne_zero n hlt h0
      · intro h0
        subst h0
        rfl
      · simp only [List.head?_cons, ne_eq, Option.some.injEq]
        exact digitChar_ne_minus n hlt
    · simp only [h, if_false]
      rw [toDigitsCore_acc]
      have hq : n / 10 < f := by omega
      have hm : n % 10 < 10 := Nat.mod_lt n (by decide)
      obtain ⟨h1, h2, h3, h4, _, h6⟩ := ih (n / 10) hq
      obtain ⟨c0, l0, hl0⟩ := List.exists_cons_of_ne_nil h3
      refine ⟨?_, ?_, ?_, ?_, ?_, ?_⟩
      · intro c hc
        rcases List.mem_append.mp hc with hc | hc
        · exact h1 c hc
        · simp at hc
          subst hc
          exact digitChar_isDigit _ hm
      · rw [digitsVal_append, h2, digitsVal_singleton, digitChar_val _ hm]
        simp only [List.length_singleton, pow_one]
        omega
      · simp
      · intro _
        have := h4 h
        rw [hl0] at this ⊢
        simpa using this
      · intro h0
        omega
      · rw [hl0] at h6 ⊢
        simpa using h6

theorem toDigits_spec (n : Nat) : DigitsOf n (Nat.toDigits 10 n) :=
  toDigitsCore_spec (n + 1) n (Nat.lt_succ_self n)

theorem fracDigits_spec (k : Nat) : ∀ n, n < 10 ^ k →
    (∀ c ∈ fracDigits k n, c.isDigit = true) ∧ (fracDigits k n).length = k ∧
      digitsVal (fracDigits k n) = n := by
  induction k with
  | zero =>
    intro n hn
    have : n = 0 := by simpa using hn
    subst this
    simp [fracDigits, digitsVal]
  | succ k ih =>
    intro n hn
    have hpos : 0 < 10 ^ k := Nat.pos_pow_of_pos k (by decide)
    have hd : n / 10 ^ k < 10 := by
      rw [Nat.div_lt_iff_lt_mul hpos]
      calc n < 10 ^ (k + 1) := hn
        _ = 10 * 10 ^ k := by ring
    obtain ⟨h1, h2, h3⟩ := ih (n % 10 ^ k) (Nat.mod_lt n hpos)
    refine ⟨?_, ?_, ?_⟩
    · intro c hc
      simp only [fracDigits, List.mem_cons] at hc
      rcases hc with hc | hc
      · subst hc
        exact digitChar_isDigit _ hd
      · exact h1 c hc
    · simp [fracDigits, h2]
    · have : fracDigits (k + 1) n = [Nat.digitChar (n / 10 ^ k)] ++ fracDigits k (n % 10 ^ k) := rfl
      rw [this, digitsVal_append, digitsVal_singleton, digitChar_val _ hd, h2, h3]
      exact Nat.div_add_mod' n (10 ^ k)

theorem isDigit_false_of_delim (c : Char) (h : c = ',' ∨ c = ']' ∨ c = '\x7d') :
    c.isDigit = false ∧ c ≠ '.' ∧ c ≠ 'e' ∧ c ≠ 'E' := by
  rcases h with h | h | h <;> subst h <;> decide

theorem takeWhile_digits (l rest : List Char) (hl : ∀ c ∈ l, c.isDigit = true)
    (hr : ∀ c, rest.head? = some c → c.isDigit = false) :
    (l ++ rest).takeWhile Char.isDigit = l ∧ (l ++ rest).dropWhile Char.isDigit = rest := by
  have ht : rest.takeWhile Char.isDigit = [] := by
    cases rest with
    | nil => rfl
    | cons c cs =>
      have := hr c rfl
      simp [List.takeWhile, this]
  have hd : rest.dropWhile Char.isDigit = rest := by
    cases rest with
    | nil => rfl
    | cons c cs =>
      have := hr c rfl
      simp [List.dropWhile, this]
  constructor
  · rw [List.takeWhile_append_of_pos hl, ht, List.append_nil]
  · rw [List.dropWhile_append_of_pos hl, hd]

theorem parseExponent_delimited (rest : List Char) (h : Delimited rest) :
    parseExponent rest = some (0, rest) := by
  cases rest with
  | nil => rfl
  | cons c cs =>
    obtain ⟨_, _, h3, h4⟩ := isDigit_false_of_delim c (h c rfl)
    simp [parseExponent, h3, h4]

theorem parseFraction_delimited (rest : List Char) (h : Delimited rest) :
    parseFraction rest = some ([], rest) := by
  cases rest with
  | nil => rfl
  | cons c cs =>
    obtain ⟨_, h2, _, _⟩ := isDigit_false_of_delim c (h c rfl)
    simp [parseFraction, h2]

theorem delimited_not_digit (rest : List Char) (h : Delimited rest) :
    ∀ c, rest.head? = some c → c.isDigit = false :=
  fun c hc => (isDigit_false_of_delim c (h c hc)).1

theorem parseUnsigned_digits (ipn k fr : Nat) (rest : List Char) (hfr : fr < 10 ^ k)
    (hrest : Delimited rest) :
    parseUnsigned (Nat.toDigits 10 ipn ++
        ((if k = 0 then [] else '.' :: fracDigits k fr) ++ rest))
      = some (((ipn * 10 ^ k + fr : Nat) : Rat) / (10 : Rat) ^ k, rest) := by
  obtain ⟨hall, hval, hne, hlead, hzero, _⟩ := toDigits_spec ipn
  obtain ⟨fall, flen, fval⟩ := fracDigits_spec k fr hfr
  have hzeroCheck : ¬ ((Nat.toDigits 10 ipn).head? = some '0' ∧ 1 < (Nat.toDigits 10 ipn).length) := by
    rintro ⟨h1, h2⟩
    by_cases h0 : ipn = 0
    · rw [hzero h0] at h2
      simp at h2
    · exact hlead h0 h1
  by_cases hk : k = 0
  · subst hk
    have hfr0 : fr = 0 := by simpa using hfr
    subst hfr0
    obtain ⟨ht, hd⟩ := takeWhile_digits (Nat.toDigits 10 ipn) rest hall (delimited_not_digit rest hrest)
    simp only [if_true, List.nil_append]
    unfold parseUnsigned
    simp only [ht, hd, if_neg hne, if_neg hzeroCheck, parseFraction_delimited rest hrest,
      parseExponent_delimited rest hrest, List.append_nil, hval]
    simp
  · simp only [if_neg hk, List.cons_append]
    obtain ⟨ht, hd⟩ := takeWhile_digits (Nat.toDigits 10 ipn) ('.' :: (fracDigits k fr ++ rest)) hall
      (by intro c hc; simp at hc; subst hc; decide)
    obtain ⟨ft, fd⟩ := takeWhile_digits (fracDigits k fr) rest fall (delimited_not_digit rest hrest)
    have fne : fracDigits k fr ≠ [] := by
      intro h
      rw [h] at flen
      simp at flen
      exact hk flen.symm
    have hfrac : parseFraction ('.' :: (fracDigits k fr ++ rest)) = some (fracDigits k fr, rest) := by
      simp only [parseFraction, if_true, ft, fd, if_neg fne]
    unfold parseUnsigned
    simp only [ht, hd, if_neg hne, if_neg hzeroCheck, hfrac, parseExponent_delimited rest hrest,
      digitsVal_append, hval, fval, flen]
    simp

theorem decimalScale_dvd (d k : Nat) (h : decimalScale d = some k) : d ∣ 10 ^ k := by
  unfold decimalScale at h
  have := List.find?_some h
  simp only [beq_iff_eq] at this
  exact Nat.dvd_of_mod_eq_zero this

theorem renderNum_value (q : Rat) (k : Nat) (h : q.den ∣ 10 ^ k) :
    ((q.num.natAbs * (10 ^ k / q.den) : Nat) : Rat) / (10 : Rat) ^ k = |q| := by
  have hden : (q.den : Rat) ≠ 0 := by exact_mod_cast q.den_nz
  have h10 : ((10 : Rat) ^ k) ≠ 0 := by positivity
  have hcast : ((10 ^ k / q.den : Nat) : Rat) = (10 : Rat) ^ k / q.den := by
    rw [Nat.cast_div h hden]
    push_cast
    rfl
  have habs : |q| = (q.num.natAbs : Rat) / q.den := by
    conv_lhs => rw [← Rat.num_div_den q]
    rw [abs_div, Nat.abs_cast]
    congr 1
    rw [Nat.cast_natAbs, Int.cast_abs]
  rw [habs]
  push_cast
  rw [hcast]
  field_simp
  ring

theorem parseNumber_renderNum (q : Rat) (rest : List Char)
    (hq : (decimalScale q.den).isSome = true) (hrest : Delimited rest) :
    parseNumber (renderNum q ++ rest) = some (.num q, rest) := by
  obtain ⟨k, hk⟩ := Option.isSome_iff_exists.mp hq
  have hdvd := decimalScale_dvd q.den k hk
  have hpos : 0 < 10 ^ k := Nat.pos_pow_of_pos k (by decide)
  have hmod : (q.num.natAbs * (10 ^ k / q.den)) % 10 ^ k < 10 ^ k := Nat.mod_lt _ hpos
  have hu := parseUnsigned_digits ((q.num.natAbs * (10 ^ k / q.den)) / 10 ^ k) k
    ((q.num.natAbs * (10 ^ k / q.den)) % 10 ^ k) rest hmod hrest
  rw [Nat.div_add_mod' (q.num.natAbs * (10 ^ k / q.den)) (10 ^ k), renderNum_value q k hdvd] at hu
  unfold renderNum
  simp only [hk]
  by_cases hneg : q.num < 0
  · simp only [if_pos hneg, List.append_assoc, List.singleton_append, List.cons_append,
      List.nil_append]
    unfold parseNumber
    simp only [if_true, hu]
    have : -|q| = q := by
      rw [abs_of_neg (Rat.num_neg.mp hneg)]
      simp
    rw [this]
  · simp only [if_neg hneg, List.nil_append, List.append_assoc]
    obtain ⟨_, _, hne, _, _, hminus⟩ :=
      toDigits_spec ((q.num.natAbs * (10 ^ k / q.den)) / 10 ^ k)
    obtain ⟨c, l, hl⟩ := List.exists_cons_of_ne_nil hne
    have hc : c ≠ '-' := by
      rw [hl] at hminus
      simpa using hminus
    have hu2 := hu
    rw [hl] at hu2 ⊢
    simp only [List.cons_append] at hu2 ⊢
    unfold parseNumber
    simp only [if_neg hc, hu2]
    have : |q| = q := by
      apply abs_of_nonneg
      exact Rat.num_nonneg.mp (not_lt.mp hneg)
    rw [this]

theorem renderNum_head (q : Rat) :
    ∃ c cs, renderNum q = c :: cs ∧ (c = 'n' ∨ c = '-' ∨ c.isDigit = true) := by
  unfold renderNum
  cases decimalScale q.den with
  | none => exact ⟨'n', _, rfl, Or.inl rfl⟩
  | some k =>
    simp only
    by_cases hneg : q.num < 0
    · simp only [if_pos hneg, List.singleton_append, List.cons_append]
      exact ⟨_, _, rfl, Or.inr (Or.inl rfl)⟩
    · obtain ⟨hall, _, hne, _, _, _⟩ :=
        toDigits_spec ((q.num.natAbs * (10 ^ k / q.den)) / 10 ^ k)
      obtain ⟨c, l, hl⟩ := List.exists_cons_of_ne_nil hne
      have hc : c.isDigit = true := hall c (by rw [hl]; simp)
      simp only [if_neg hneg, List.nil_append, hl, List.cons_append]
      exact ⟨_, _, rfl, Or.inr (Or.inr hc)⟩

/-! ## Round trip of values -/

theorem isDigit_facts (c : Char) (h : c.isDigit = true) :
    isWs c = false ∧ c ≠ ']' ∧ c ≠ '\x7d' ∧ c ≠ ',' ∧ c ≠ '"' ∧ c ≠ '[' ∧ c ≠ '\x7b' ∧
      c ≠ 'n' ∧ c ≠ 't' ∧ c ≠ 'f' := by
  refine ⟨?_, ?_, ?_, ?_, ?_, ?_, ?_, ?_, ?_, ?_⟩
  · cases hw : isWs c with
    | false => rfl
    | true =>
      exfalso
      simp only [isWs, Bool.or_eq_true, decide_eq_true_eq] at hw
      rcases hw with ((hw | hw) | hw) | hw <;> subst hw <;> exact absurd h (by decide)
  all_goals (rintro rfl; exact absurd h (by decide))

theorem valueStart_facts (c : Char) (h : ValueStart c) :
    isWs c = false ∧ c ≠ ']' ∧ c ≠ '\x7d' ∧ c ≠ ',' := by
  rcases h with h | h | h | h | h | h | h | h
  · subst h; decide
  · subst h; decide
  · subst h; decide
  · subst h; decide
  · subst h; decide
  · subst h; decide
  · subst h; decide
  · obtain ⟨h1, h2, h3, h4, _⟩ := isDigit_facts c h
    exact ⟨h1, h2, h3, h4⟩

theorem skipWs_cons (c : Char) (cs : List Char) (h : isWs c = false) :
    skipWs (c :: cs) = c :: cs := by
  simp [skipWs, List.dropWhile, h]

theorem renderNum_head_serializable (q : Rat) (hq : (decimalScale q.den).isSome = true) :
    ∃ c cs, renderNum q = c :: cs ∧ (c = '-' ∨ c.isDigit = true) := by
  obtain ⟨c, cs, h, hc⟩ := renderNum_head q
  rcases hc with hc | hc
  · exfalso
    obtain ⟨k, hk⟩ := Option.isSome_iff_exists.mp hq
    unfold renderNum at h
    simp only [hk] at h
    subst hc
    by_cases hneg : q.num < 0
    · simp [hneg] at h
    · obtain ⟨hall, _, hne, _, _, _⟩ :=
        toDigits_spec ((q.num.natAbs * (10 ^ k / q.den)) / 10 ^ k)
      obtain ⟨d, l, hl⟩ := List.exists_cons_of_ne_nil hne
      have hd : d.isDigit = true := hall d (by rw [hl]; simp)
      simp only [if_neg hneg, List.nil_append, hl, List.cons_append, List.cons.injEq] at h
      rw [h.1] at hd
      exact absurd hd (by decide)
  · exact ⟨c, cs, h, hc⟩

theorem render_head (v : JSValue) (hv : v.isSerializable = true) :
    ∃ c cs, render v = c :: cs ∧ ValueStart c := by
  cases v with
  | null => exact ⟨_, _, rfl, by simp [ValueStart]⟩
  | bool b =>
    cases b
    · exact ⟨_, _, rfl, by simp [ValueStart]⟩
    · exact ⟨_, _, rfl, by simp [ValueStart]⟩
  | num q =>
    obtain ⟨c, cs, h, hc⟩ := renderNum_head_serializable q (by simpa [JSValue.isSerializable] using hv)
    refine ⟨c, cs, by simpa [render] using h, ?_⟩
    rcases hc with hc | hc
    · simp [ValueStart, hc]
    · simp [ValueStart, hc]
  | str s => exact ⟨_, _, rfl, by simp [ValueStart]⟩
  | arr xs => exact ⟨_, _, rfl, by simp [ValueStart]⟩
  | obj ms => exact ⟨_, _, rfl, by simp [ValueStart]⟩

theorem lookup_none_of_not_mem (k : String) :
    ∀ ms : JSMembers, k ∉ ms.keys → ms.lookup k = none
  | .nil, _ => rfl
  | .cons l v tl, h => by
    simp only [JSMembers.keys, List.mem_cons, not_or] at h
    simp only [JSMembers.lookup]
    rw [if_neg (fun e => h.1 e.symm)]
    exact lookup_none_of_not_mem k tl h.2

theorem dedup_of_nodup : ∀ ms : JSMembers, ms.keys.Nodup → ms.dedup = ms
  | .nil, _ => rfl
  | .cons k v tl, h => by
    simp only [JSMembers.keys, List.nodup_cons] at h
    simp only [JSMembers.dedup, dedup_of_nodup tl h.2, lookup_none_of_not_mem k tl h.1]

theorem renderElements_head (v : JSValue) (tl : JSList)
    (hs : (JSList.cons v tl).isSerializable = true) :
    ∃ c cs, renderElements (.cons v tl) = c :: cs ∧ ValueStart c := by
  have hv : v.isSerializable = true := by
    simp only [JSList.isSerializable, Bool.and_eq_true] at hs
    exact hs.1
  obtain ⟨c, cs, hc, hstart⟩ := render_head v hv
  cases tl with
  | nil => exact ⟨c, cs ++ [']'], by simp [renderElements, hc], hstart⟩
  | cons w tl2 =>
    exact ⟨c, cs ++ ',' :: renderElements (.cons w tl2), by simp [renderElements, hc], hstart⟩

theorem renderMembers_head (k : String) (v : JSValue) (tl : JSMembers) :
    ∃ cs, renderMembers (.cons k v tl) = '"' :: cs := by
  cases tl with
  | nil => exact ⟨_, rfl⟩
  | cons l w tl2 => exact ⟨_, rfl⟩

theorem succ_of_pos_le (n fuel : Nat) (h : 1 + n ≤ fuel) : ∃ f, fuel = f + 1 ∧ n ≤ f :=
  ⟨fuel - 1, by omega, by omega⟩

mutual
theorem parseValue_render : ∀ (v : JSValue), v.isSerializable = true →
    ∀ (fuel : Nat) (rest : List Char), v.size ≤ fuel → Delimited rest →
      parseValue fuel (render v ++ rest) = some (v, rest)
  | .null, _, fuel, rest, hf, _ => by
    obtain ⟨f, rfl, _⟩ := succ_of_pos_le 0 fuel (by simpa [JSValue.size] using hf)
    simp [render, parseValue, expectWord]
  | .bool true, _, fuel, rest, hf, _ => by
    obtain ⟨f, rfl, _⟩ := succ_of_pos_le 0 fuel (by simpa [JSValue.size] using hf)
    simp [render, parseValue, expectWord]
  | .bool false, _, fuel, rest, hf, _ => by
    obtain ⟨f, rfl, _⟩ := succ_of_pos_le 0 fuel (by simpa [JSValue.size] using hf)
    simp [render, parseValue, expectWord]
  | .num q, hv, fuel, rest, hf, hr => by
    obtain ⟨f, rfl, _⟩ := succ_of_pos_le 0 fuel (by simpa [JSValue.size] using hf)
    have hq : (decimalScale q.den).isSome = true := by simpa [JSValue.isSerializable] using hv
    obtain ⟨c, cs, hc, hstart⟩ := renderNum_head_serializable q hq
    have hnum := parseNumber_renderNum q rest hq hr
    have hne : c ≠ '"' ∧ c ≠ '[' ∧ c ≠ '\x7b' ∧ c ≠ 'n' ∧ c ≠ 't' ∧ c ≠ 'f' := by
      rcases hstart with h | h
      · subst h; decide
      · obtain ⟨_, _, _, _, h5, h6, h7, h8, h9, h10⟩ := isDigit_facts c h
        exact ⟨h5, h6, h7, h8, h9, h10⟩
    obtain ⟨n1, n2, n3, n4, n5, n6⟩ := hne
    simp only [render]
    rw [hc] at hnum ⊢
    simp only [List.cons_append] at hnum ⊢
    simp only [parseValue, if_neg n1, if_neg n2, if_neg n3, if_neg n4, if_neg n5, if_neg n6]
    exact hnum
  | .str s, _, fuel, rest, hf, _ => by
    obtain ⟨f, rfl, _⟩ := succ_of_pos_le 0 fuel (by simpa [JSValue.size] using hf)
    simp only [render, renderString, List.cons_append, List.append_assoc, List.singleton_append]
    simp only [parseValue, if_true, parseString_renderString, List.nil_append]
  | .arr .nil, _, fuel, rest, hf, _ => by
    obtain ⟨f, rfl, _⟩ := succ_of_pos_le 0 fuel (by simpa [JSValue.size, JSList.size] using hf)
    simp [render, renderElements, parseValue, skipWs_cons, isWs]
  | .arr (.cons v tl), hv, fuel, rest, hf, hr => by
    obtain ⟨f, rfl, hf1⟩ := succ_of_pos_le ((JSList.cons v tl).size) fuel
      (by simpa [JSValue.size] using hf)
    have hs : (JSList.cons v tl).isSerializable = true := by
      simpa [JSValue.isSerializable] using hv
    have ih := parseElements_render (.cons v tl) (by simp) hs f rest hf1
    obtain ⟨c, cs, hc, hstart⟩ := renderElements_head v tl hs
    obtain ⟨w1, w2, _, _⟩ := valueStart_facts c hstart
    simp only [render, List.cons_append]
    rw [hc] at ih ⊢
    simp only [List.cons_append] at ih ⊢
    simp only [parseValue, skipWs_cons c _ w1, if_neg w2, ih]
    simp
  | .obj .nil, _, fuel, rest, hf, _ => by
    obtain ⟨f, rfl, _⟩ := succ_of_pos_le 0 fuel (by simpa [JSValue.size, JSMembers.size] using hf)
    simp [render, renderMembers, parseValue, skipWs_cons, isWs]
  | .obj (.cons k v tl), hv, fuel, rest, hf, hr => by
    obtain ⟨f, rfl, hf1⟩ := succ_of_pos_le ((JSMembers.cons k v tl).size) fuel
      (by simpa [JSValue.size] using hf)
    have hs : (JSMembers.cons k v tl).keys.Nodup ∧ (JSMembers.cons k v tl).isSerializable = true := by
      simpa [JSValue.isSerializable] using hv
    have ih := parseMembers_render (.cons k v tl) (by simp) hs.2 f rest hf1
    obtain ⟨cs, hc⟩ := renderMembers_head k v tl
    simp only [render, List.cons_append]
    rw [hc] at ih ⊢
    simp only [List.cons_append] at ih ⊢
    have w1 : isWs '"' = false := by decide
    have w2 : ('"' : Char) ≠ '\x7d' := by decide
    simp only [parseValue, skipWs_cons '"' _ w1, if_neg w2, ih, dedup_of_nodup _ hs.1]
    simp
theorem parseElements_render : ∀ (xs : JSList), xs ≠ .nil → xs.isSerializable = true →
    ∀ (fuel : Nat) (rest : List Char), xs.size ≤ fuel →
      parseElements fuel (renderElements xs ++ rest) = some (xs, rest)
  | .nil, h, _, _, _, _ => absurd rfl h
  | .cons v .nil, _, hs, fuel, rest, hf => by
    obtain ⟨f, rfl, hf1⟩ := succ_of_pos_le (v.size) fuel
      (by simpa [JSList.size] using hf)
    have hv : v.isSerializable = true := by
      simpa [JSList.isSerializable] using hs
    have ih := parseValue_render v hv f (']' :: rest) hf1 (delimited_cons _ _ (by simp))
    simp only [renderElements, List.append_assoc, List.singleton_append]
    simp only [parseElements, ih, skipWs_cons ']' rest (by decide), if_true]
  | .cons v (.cons w tl), _, hs, fuel, rest, hf => by
    obtain ⟨f, rfl, hf1⟩ := succ_of_pos_le (v.size + (JSList.cons w tl).size) fuel
      (by simp only [JSList.size] at hf ⊢; omega)
    have hs2 : v.isSerializable = true ∧ (JSList.cons w tl).isSerializable = true := by
      simpa [JSList.isSerializable] using hs
    have ih1 := parseValue_render v hs2.1 f (',' :: (renderElements (.cons w tl) ++ rest))
      (by omega) (delimited_cons _ _ (by simp))
    have ih2 := parseElements_render (.cons w tl) (by simp) hs2.2 f rest (by omega)
    obtain ⟨c, cs, hc, hstart⟩ := renderElements_head w tl hs2.2
    obtain ⟨w1, _, _, _⟩ := valueStart_facts c hstart
    simp only [renderElements, List.append_assoc, List.cons_append]
    have c1 : (',' : Char) ≠ ']' := by decide
    simp only [parseElements, ih1, skipWs_cons ',' _ (by decide), if_neg c1, if_true]
    rw [hc] at ih2 ⊢
    simp only [List.cons_append] at ih2 ⊢
    simp only [skipWs_cons c _ w1, ih2]
theorem parseMembers_render : ∀ (ms : JSMembers), ms ≠ .nil → ms.isSerializable = true →
    ∀ (fuel : Nat) (rest : List Char), ms.size ≤ fuel →
      parseMembers fuel (renderMembers ms ++ rest) = some (ms, rest)
  | .nil, h, _, _, _, _ => absurd rfl h
  | .cons k v .nil, _, hs, fuel, rest, hf => by
    obtain ⟨f, rfl, hf1⟩ := succ_of_pos_le (v.size) fuel
      (by simpa [JSMembers.size] using hf)
    have hv : v.isSerializable = true := by
      simpa [JSMembers.isSerializable] using hs
    have ih := parseValue_render v hv f ('\x7d' :: rest) hf1 (delimited_cons _ _ (by simp))
    obtain ⟨c, cs, hc, hstart⟩ := render_head v hv
    obtain ⟨w1, _, _, _⟩ := valueStart_facts c hstart
    simp only [renderMembers, renderString, List.append_assoc, List.singleton_append,
      List.cons_append]
    simp only [parseMembers, if_true, parseString_renderString, List.nil_append,
      skipWs_cons ':' _ (by decide)]
    rw [hc] at ih ⊢
    simp only [List.cons_append] at ih ⊢
    simp only [skipWs_cons c _ w1, ih, skipWs_cons '\x7d' rest (by decide), if_true]
  | .cons k v (.cons l w tl), _, hs, fuel, rest, hf => by
    obtain ⟨f, rfl, hf1⟩ := succ_of_pos_le (v.size + (JSMembers.cons l w tl).size) fuel
      (by simp only [JSMembers.size] at hf ⊢; omega)
    have hs2 : v.isSerializable = true ∧ (JSMembers.cons l w tl).isSerializable = true := by
      simpa [JSMembers.isSerializable] using hs
    have ih1 := parseValue_render v hs2.1 f (',' :: (renderMembers (.cons l w tl) ++ rest))
      (by omega) (delimited_cons _ _ (by simp))
    have ih2 := parseMembers_render (.cons l w tl) (by simp) hs2.2 f rest (by omega)
    obtain ⟨c, cs, hc, hstart⟩ := render_head v hs2.1
    obtain ⟨w1, _, _, _⟩ := valueStart_facts c hstart
    obtain ⟨cs2, hc2⟩ := renderMembers_head l w tl
    simp only [renderMembers, renderString, List.append_assoc, List.singleton_append,
      List.cons_append]
    simp only [parseMembers, if_true, parseString_renderString, List.nil_append,
      skipWs_cons ':' _ (by decide)]
    rw [hc] at ih1 ⊢
    simp only [List.cons_append] at ih1 ⊢
    have c1 : (',' : Char) ≠ '\x7d' := by decide
    simp only [skipWs_cons c _ w1, ih1, skipWs_cons ',' _ (by decide), if_neg c1, if_true]
    rw [hc2] at ih2 ⊢
    simp only [List.cons_append] at ih2 ⊢
    simp only [skipWs_cons '"' _ (by decide), ih2]
end

theorem renderNum_ne_nil (q : Rat) : renderNum q ≠ [] := by
  obtain ⟨c, cs, h, _⟩ := renderNum_head q
  rw [h]
  simp

mutual
theorem render_length : ∀ (v : JSValue), v.size ≤ (render v).length
  | .null => by simp [JSValue.size, render]
  | .bool true => by simp [JSValue.size, render]
  | .bool false => by simp [JSValue.size, render]
  | .num q => by
    have := List.length_pos.mpr (renderNum_ne_nil q)
    simp only [JSValue.size, render]
    omega
  | .str s => by simp [JSValue.size, render, renderString]
  | .arr xs => by
    have := renderElements_length xs
    simp only [JSValue.size, render, List.length_cons]
    omega
  | .obj ms => by
    have := renderMembers_length ms
    simp only [JSValue.size, render, List.length_cons]
    omega
theorem renderElements_length : ∀ (xs : JSList), xs.size ≤ (renderElements xs).length
  | .nil => by simp [JSList.size]
  | .cons v .nil => by
    have := render_length v
    simp only [JSList.size, renderElements, List.length_append, List.length_singleton]
    omega
  | .cons v (.cons w tl) => by
    have h1 := render_length v
    have h2 := renderElements_length (.cons w tl)
    simp only [JSList.size, renderElements, List.length_append, List.length_cons] at h2 ⊢
    omega
theorem renderMembers_length : ∀ (ms : JSMembers), ms.size ≤ (renderMembers ms).length
  | .nil => by simp [JSMembers.size]
  | .cons k v .nil => by
    have := render_length v
    simp only [JSMembers.size, renderMembers, List.length_append, List.length_cons,
      List.length_singleton]
    omega
  | .cons k v (.cons l w tl) => by
    have h1 := render_length v
    have h2 := renderMembers_length (.cons l w tl)
    simp only [JSMembers.size, renderMembers, List.length_append, List.length_cons] at h2 ⊢
    omega
end

theorem render_ne_nil (v : JSValue) : render v ≠ [] := by
  cases v with
  | null => simp [render]
  | bool b => cases b <;> simp [render]
  | num q => simpa [render] using renderNum_ne_nil q
  | str s => simp [render, renderString]
  | arr xs => simp [render]
  | obj ms => simp [render]

/-- The text `JSON.stringify` produces is never the empty string. -/
theorem stringify_ne_empty (v : JSValue) : JSON.stringify v ≠ "" := by
  intro h
  have : (JSON.stringify v).data = ("" : String).data := by rw [h]
  exact render_ne_nil v this

/-- Reading back what `JSON.stringify` wrote gives the value that was written. -/
theorem parse_stringify (v : JSValue) (hv : v.isSerializable = true) :
    JSON.parse (JSON.stringify v) = .ok v := by
  obtain ⟨c, cs, hc, hstart⟩ := render_head v hv
  obtain ⟨w1, _, _, _⟩ := valueStart_facts c hstart
  have hlen := render_length v
  have h := parseValue_render v hv (2 * (render v).length + 1) [] (by omega) delimited_nil
  rw [List.append_nil] at h
  have hskip : skipWs (render v) = render v := by
    rw [hc]
    exact skipWs_cons c cs w1
  unfold JSON.parse JSON.stringify
  simp only [hskip, h]
  simp [skipWs]

theorem getFromLocalStorage_eq (st : Storage) (k : String) (d : JSValue) :
    getFromLocalStorage st k d =
      match st.getItem k with
      | none => .ok d
      | some text =>
        if text = "" then .ok d
        else
          match JSON.parse text with
          | .ok v => .ok v
          | .error _ => .ok d := by
  unfold getFromLocalStorage tryCatch
  cases st.getItem k with
  | none => rfl
  | some text =>
    by_cases h : text = ""
    · simp [h]
    · cases hp : JSON.parse text with
      | ok v => simp [h, hp]
      | error e => simp [h, hp]

theorem getFromLocalStorage_of_stringify (st : Storage) (k : String) (v d : JSValue)
    (hv : v.isSerializable = true) (h : st.getItem k = some (JSON.stringify v)) :
    getFromLocalStorage st k d = .ok v := by
  rw [getFromLocalStorage_eq, h]
  simp only [if_neg (stringify_ne_empty v), parse_stringify v hv]

theorem getFromLocalStorage_save (st : Storage) (k : String) (v d : JSValue)
    (hv : v.isSerializable = true) :
    getFromLocalStorage (saveToLocalStorage st k v) k d = .ok v := by
  apply getFromLocalStorage_of_stringify _ _ _ _ hv
  unfold saveToLocalStorage
  rw [getItem_setItem, if_pos rfl]

/-! ## Numerals of integers -/

theorem decimalScale_one : decimalScale 1 = some 0 := by
  decide

theorem isSerializable_intCast (z : Int) : (JSValue.num (z : Rat)).isSerializable = true := by
  simp [JSValue.isSerializable, decimalScale_one]

theorem isSerializable_str (s : String) : (JSValue.str s).isSerializable = true := rfl

theorem strictEqString_iff (v : JSValue) (s : String) :
    v.strictEqString s = true ↔ v = .str s := by
  cases v <;> simp [JSValue.strictEqString]

/-! ## Reads of the storage -/

theorem getFromLocalStorage_absent (st : Storage) (k : String) (d : JSValue)
    (h : st.getItem k = none) : getFromLocalStorage st k d = .ok d := by
  rw [getFromLocalStorage_eq, h]

theorem getItem_save (st : Storage) (k k2 : String) (v : JSValue) :
    (saveToLocalStorage st k v).getItem k2
      = if k2 = k then some (JSON.stringify v) else st.getItem k2 := by
  unfold saveToLocalStorage
  exact getItem_setItem st k _ k2

theorem getFromLocalStorage_save_other (st : Storage) (k k2 : String) (v d : JSValue)
    (h : k2 ≠ k) :
    getFromLocalStorage (saveToLocalStorage st k v) k2 d = getFromLocalStorage st k2 d := by
  rw [getFromLocalStorage_eq, getFromLocalStorage_eq, getItem_save, if_neg h]

/-- C3: a value written with `saveToLocalStorage` is read back unchanged by
`getFromLocalStorage`, whatever the key, the default and the previous content of the
storage, for every JSON-serializable value (falsy ones included, since the stored text is
never empty); and a key that holds nothing yields the default. -/
theorem save_then_load (st : Storage) (k : String) (v d : JSValue)
    (hv : v.isSerializable = true) (st2 : Storage) (k2 : String) (d2 : JSValue)
    (habsent : st2.getItem k2 = none) :
    getFromLocalStorage (saveToLocalStorage st k v) k d = .ok v ∧
      getFromLocalStorage st2 k2 d2 = .ok d2 :=
  ⟨getFromLocalStorage_save st k v d hv, getFromLocalStorage_absent st2 k2 d2 habsent⟩

/-- C3, at the falsy values `0`, `false`, `""` and `null`, with a truthy default. -/
theorem save_then_load_falsy :
    (getFromLocalStorage (saveToLocalStorage Storage.empty "k" (.num 0)) "k" (.bool true)
        = .ok (.num 0) ∧
      getFromLocalStorage Storage.empty "other" (.bool true) = .ok (.bool true)) ∧
    (getFromLocalStorage (saveToLocalStorage Storage.empty "k" (.bool false)) "k" (.bool true)
        = .ok (.bool false) ∧
      getFromLocalStorage Storage.empty "other" (.bool true) = .ok (.bool true)) ∧
    (getFromLocalStorage (saveToLocalStorage Storage.empty "k" (.str "")) "k" (.bool true)
        = .ok (.str "") ∧
      getFromLocalStorage Storage.empty "other" (.bool true) = .ok (.bool true)) ∧
    (getFromLocalStorage (saveToLocalStorage Storage.empty "k" .null) "k" (.bool true)
        = .ok .null ∧
      getFromLocalStorage Storage.empty "other" (.bool true) = .ok (.bool true)) :=
  ⟨save_then_load Storage.empty "k" (.num 0) (.bool true) (by decide) Storage.empty "other"
      (.bool true) rfl,
    save_then_load Storage.empty "k" (.bool false) (.bool true) rfl Storage.empty "other"
      (.bool true) rfl,
    save_then_load Storage.empty "k" (.str "") (.bool true) rfl Storage.empty "other"
      (.bool true) rfl,
    save_then_load Storage.empty "k" .null (.bool true) rfl Storage.empty "other"
      (.bool true) rfl⟩

/-- C4: `getFromLocalStorage` always returns normally. It returns the parsed value when the
stored text is non-empty and parses, and the default when the key is absent, when the
stored text is empty and when the stored text does not parse. -/
theorem load_never_raises (st : Storage) (k : String) (d : JSValue) :
    (∃ v, getFromLocalStorage st k d = .ok v) ∧
      (∀ text v, st.getItem k = some text → text ≠ "" → JSON.parse text = .ok v →
        getFromLocalStorage st k d = .ok v) ∧
      (st.getItem k = none → getFromLocalStorage st k d = .ok d) ∧
      (st.getItem k = some "" → getFromLocalStorage st k d = .ok d) ∧
      (∀ text e, st.getItem k = some text → JSON.parse text = .error e →
        getFromLocalStorage st k d = .ok d) := by
  refine ⟨getFromLocalStorage_ok st k d, ?_, ?_, ?_, ?_⟩
  · intro text v h1 h2 h3
    rw [getFromLocalStorage_eq, h1]
    simp only [if_neg h2, h3]
  · intro h
    exact getFromLocalStorage_absent st k d h
  · intro h
    rw [getFromLocalStorage_eq, h]
    simp
  · intro text e h1 h2
    rw [getFromLocalStorage_eq, h1]
    by_cases h : text = ""
    · simp [h]
    · simp only [if_neg h, h2]

/-- C4, on a storage whose entry is not JSON, one whose entry is, and an empty entry. -/
theorem load_never_raises_examples :
    getFromLocalStorage ⟨[("k", "\x7boops")], []⟩ "k" (.num 7) = .ok (.num 7) ∧
      getFromLocalStorage ⟨[("k", "[true,null]")], []⟩ "k" (.num 7)
        = .ok (.arr (.cons (.bool true) (.cons .null .nil))) ∧
      getFromLocalStorage ⟨[("k", "")], []⟩ "k" (.num 7) = .ok (.num 7) :=
  ⟨(load_never_raises ⟨[("k", "\x7boops")], []⟩ "k" (.num 7)).2.2.2.2 "\x7boops"
      .syntaxError rfl rfl,
    (load_never_raises ⟨[("k", "[true,null]")], []⟩ "k" (.num 7)).2.1 "[true,null]"
      (.arr (.cons (.bool true) (.cons .null .nil))) rfl (by decide) rfl,
    (load_never_raises ⟨[("k", "")], []⟩ "k" (.num 7)).2.2.2.1 rfl⟩

/-! ## Theme -/

/-- C9: applying the saved theme a second time changes nothing: the outcome of two
applications in a row is the outcome of one, for every stored theme and every class list
of the body and of the icon. -/
theorem applySavedTheme_idempotent (st : ThemeState) :
    (applySavedTheme st >>= applySavedTheme) = applySavedTheme st := by
  obtain ⟨v, hv⟩ := getFromLocalStorage_ok st.localStorage "theme" .null
  by_cases hdark : v.strictEqString "dark-theme" = true
  · have h1 : applySavedTheme st = .ok { st with
        body := classAdd st.body "dark-theme"
        icon := classReplace st.icon "fa-moon" "fa-sun" } := by
      simp only [applySavedTheme, hv, hdark, if_true]
    rw [h1]
    show applySavedTheme _ = _
    simp only [applySavedTheme, hv, hdark, if_true, classAdd_idem,
      classReplace_idem _ _ _ (by decide : ("fa-moon" : String) ≠ "fa-sun")]
  · have h1 : applySavedTheme st = .ok st := by
      simp only [applySavedTheme, hv, hdark]
      rfl
    rw [h1]
    exact h1

/-- C7 as stated fails: starting from the light theme, `toggleTheme` turns dark mode on
but what it stores under `theme` is not the value `"dark"`; and with the value `"dark"`
in the storage `applySavedTheme` leaves the body without dark mode. -/
theorem toggleTheme_does_not_store_dark :
    classContains (toggleTheme ⟨[], ["fas", "fa-moon"], Storage.empty⟩).body "dark-theme" = true ∧
      (toggleTheme ⟨[], ["fas", "fa-moon"], Storage.empty⟩).localStorage.getItem "theme"
        ≠ some (JSON.stringify (.str "dark")) ∧
      getFromLocalStorage
          (toggleTheme ⟨[], ["fas", "fa-moon"], Storage.empty⟩).localStorage "theme" .null
        ≠ .ok (.str "dark") ∧
      getFromLocalStorage (saveToLocalStorage Storage.empty "theme" (.str "dark")) "theme" .null
        = .ok (.str "dark") ∧
      applySavedTheme ⟨[], ["fas", "fa-moon"], saveToLocalStorage Storage.empty "theme" (.str "dark")⟩
        = .ok ⟨[], ["fas", "fa-moon"], saveToLocalStorage Storage.empty "theme" (.str "dark")⟩ := by
  refine ⟨by decide, by decide, ?_, rfl, rfl⟩
  have h : getFromLocalStorage
      (toggleTheme ⟨[], ["fas", "fa-moon"], Storage.empty⟩).localStorage "theme" .null
      = .ok (.str "dark-theme") := rfl
  rw [h]
  intro heq
  exact absurd (Except.ok.inj heq) (by decide)

/-- C7, amended: `toggleTheme` flips dark mode and stores under `theme` the value
`"dark-theme"` when dark mode is now on and the empty string when it is now off (and that
value is what `getFromLocalStorage` reads back); `applySavedTheme` turns dark mode on when
the stored theme is `"dark-theme"`. -/
theorem toggleTheme_persists (st : ThemeState) :
    classContains (toggleTheme st).body "dark-theme" = !classContains st.body "dark-theme" ∧
      (toggleTheme st).localStorage.getItem "theme"
        = some (JSON.stringify (.str
            (if classContains (toggleTheme st).body "dark-theme" then "dark-theme" else ""))) ∧
      getFromLocalStorage (toggleTheme st).localStorage "theme" .null
        = .ok (.str (if classContains (toggleTheme st).body "dark-theme" then "dark-theme" else "")) ∧
      (getFromLocalStorage st.localStorage "theme" .null = .ok (.str "dark-theme") →
        ∃ st2, applySavedTheme st = .ok st2 ∧ classContains st2.body "dark-theme" = true ∧
          st2.localStorage = st.localStorage) := by
  refine ⟨?_, ?_, ?_, ?_⟩
  · by_cases h : "dark-theme" ∈ st.body
    · simp [toggleTheme, classToggle, classContains, classRemove, h]
    · simp [toggleTheme, classToggle, classContains, classRemove, h]
  · simp only [toggleTheme, getItem_save, if_true]
  · simp only [toggleTheme]
    exact getFromLocalStorage_save _ _ _ _ rfl
  · intro h
    refine ⟨{ st with body := classAdd st.body "dark-theme"
                      icon := classReplace st.icon "fa-moon" "fa-sun" }, ?_, ?_, rfl⟩
    · simp only [applySavedTheme, h]
      rfl
    · exact (classContains_iff _ _).mpr (mem_classAdd _ _)

/-- C7 amended, on a light page: one toggle stores `"dark-theme"`, and applying the saved
theme on a fresh light page with that storage turns dark mode on. -/
theorem toggleTheme_persists_example :
    getFromLocalStorage (toggleTheme ⟨[], ["fas", "fa-moon"], Storage.empty⟩).localStorage
        "theme" .null = .ok (.str "dark-theme") ∧
      ∃ st2, applySavedTheme
          ⟨[], ["fas", "fa-moon"], saveToLocalStorage Storage.empty "theme" (.str "dark-theme")⟩
            = .ok st2 ∧ classContains st2.body "dark-theme" = true ∧
          st2.localStorage = saveToLocalStorage Storage.empty "theme" (.str "dark-theme") :=
  ⟨(toggleTheme_persists ⟨[], ["fas", "fa-moon"], Storage.empty⟩).2.2.1,
    (toggleTheme_persists
      ⟨[], ["fas", "fa-moon"], saveToLocalStorage Storage.empty "theme" (.str "dark-theme")⟩).2.2.2
      rfl⟩

/-! ## Navigation -/

theorem map_id_modify_deactivate (l : List Element) : ∀ j : Nat,
    (l.modify deactivate j).map (fun e => e.id) = l.map (fun e => e.id) := by
  induction l with
  | nil => intro j; simp
  | cons a as ih =>
    intro j
    cases j with
    | zero => simp [deactivate]
    | succ j => simp [ih j]

theorem map_id_cleared (secs : List Nat) : ∀ els : List Element,
    (secs.foldl (fun els i => els.modify deactivate i) els).map (fun e => e.id)
      = els.map (fun e => e.id) := by
  induction secs with
  | nil => intro els; rfl
  | cons j js ih =>
    intro els
    simp only [List.foldl_cons]
    rw [ih, map_id_modify_deactivate]

theorem deactivate_idem (e : Element) : deactivate (deactivate e) = deactivate e := by
  simp [deactivate, classRemove]

theorem getElem?_cleared (secs : List Nat) : ∀ (els : List Element) (i : Nat),
    (secs.foldl (fun els i => els.modify deactivate i) els)[i]?
      = if i ∈ secs then els[i]?.map deactivate else els[i]? := by
  induction secs with
  | nil => intro els i; simp
  | cons j js ih =>
    intro els i
    simp only [List.foldl_cons]
    rw [ih, List.getElem?_modify]
    by_cases hij : j = i
    · subst hij
      by_cases hjs : j ∈ js
      · cases h : els[j]? <;> simp [hjs, h, deactivate_idem]
      · cases h : els[j]? <;> simp [hjs, h]
    · have hij2 : ¬ i = j := fun e => hij e.symm
      by_cases hjs : i ∈ js
      · cases h : els[i]? <;> simp [hjs, h, hij, hij2]
      · cases h : els[i]? <;> simp [hjs, h, hij, hij2]

theorem showSection_eq (st : NavState) (id : String) :
    showSection st id =
      match getElementById (st.sections.foldl (fun els i => els.modify deactivate i) st.elements) id with
      | some j =>
        { st with
          elements := (st.sections.foldl (fun els i => els.modify deactivate i) st.elements).modify
            (fun e => { e with classList := classAdd e.classList "active-section" }) j
          scrollTop := 0 }
      | none =>
        { st with
          elements := st.sections.foldl (fun els i => els.modify deactivate i) st.elements } := rfl

theorem getElementById_cleared_none (secs : List Nat) (els : List Element) (id : String)
    (h : getElementById els id = none) :
    getElementById (secs.foldl (fun els i => els.modify deactivate i) els) id = none := by
  unfold getElementById at h ⊢
  by_cases hid : id = ""
  · rw [if_pos hid]
  rw [if_neg hid] at h ⊢
  rw [List.findIdx?_eq_none_iff] at h ⊢
  intro x hx
  have hmem : x.id ∈ (secs.foldl (fun els i => els.modify deactivate i) els).map (fun e => e.id) :=
    List.mem_map.mpr ⟨x, hx, rfl⟩
  rw [map_id_cleared] at hmem
  obtain ⟨y, hy, hxy⟩ := List.mem_map.mp hmem
  have := h y hy
  simp only [← hxy]
  exact this

/-- C8 as stated fails: on a page whose `dashboard` section is active, `showSection` with
an id that matches no element leaves no section active. -/
theorem unknown_id_clears_active_section :
    getElementById
        [⟨"dashboard", ["dashboard-section", "active-section"]⟩, ⟨"tracker", ["dashboard-section"]⟩]
        "settings" = none ∧
      isActive
        [⟨"dashboard", ["dashboard-section", "active-section"]⟩, ⟨"tracker", ["dashboard-section"]⟩]
        0 = true ∧
      isActive (showSection
        ⟨[⟨"dashboard", ["dashboard-section", "active-section"]⟩, ⟨"tracker", ["dashboard-section"]⟩],
          [0, 1], 5⟩ "settings").elements 0 = false ∧
      (showSection
        ⟨[⟨"dashboard", ["dashboard-section", "active-section"]⟩, ⟨"tracker", ["dashboard-section"]⟩],
          [0, 1], 5⟩ "settings").elements
        = [⟨"dashboard", ["dashboard-section"]⟩, ⟨"tracker", ["dashboard-section"]⟩] := by
  decide

/-- C8, amended: for a section id that matches no element, `showSection(id)` deactivates
every section, so that no section is active afterwards; it changes nothing else: the
elements outside the section list, every `id`, the section list and the scroll position
stay as they were. -/
theorem showSection_unknown_id (st : NavState) (id : String)
    (h : getElementById st.elements id = none) :
    (∀ i ∈ st.sections, isActive (showSection st id).elements i = false) ∧
      (∀ i, i ∉ st.sections → (showSection st id).elements[i]? = st.elements[i]?) ∧
      (showSection st id).elements.map (fun e => e.id) = st.elements.map (fun e => e.id) ∧
      (showSection st id).sections = st.sections ∧
      (showSection st id).scrollTop = st.scrollTop := by
  have hnone := getElementById_cleared_none st.sections st.elements id h
  have hshow : showSection st id = { st with
      elements := st.sections.foldl (fun els i => els.modify deactivate i) st.elements } := by
    rw [showSection_eq, hnone]
  rw [hshow]
  refine ⟨?_, ?_, ?_, rfl, rfl⟩
  · intro i hi
    simp only [isActive]
    rw [getElem?_cleared, if_pos hi]
    cases hel : st.elements[i]? with
    | none => rfl
    | some e => simp [deactivate, classContains, classRemove]
  · intro i hi
    simp only
    rw [getElem?_cleared, if_neg hi]
  · exact map_id_cleared st.sections st.elements

/-- C8 amended, on the page with the sections `dashboard` (active) and `tracker`. -/
theorem showSection_unknown_id_example :
    (∀ i ∈ [0, 1], isActive (showSection
        ⟨[⟨"dashboard", ["dashboard-section", "active-section"]⟩, ⟨"tracker", ["dashboard-section"]⟩],
          [0, 1], 5⟩ "settings").elements i = false) ∧
      (showSection
        ⟨[⟨"dashboard", ["dashboard-section", "active-section"]⟩, ⟨"tracker", ["dashboard-section"]⟩],
          [0, 1], 5⟩ "settings").scrollTop = 5 :=
  ⟨(showSection_unknown_id
      ⟨[⟨"dashboard", ["dashboard-section", "active-section"]⟩, ⟨"tracker", ["dashboard-section"]⟩],
        [0, 1], 5⟩ "settings" (by decide)).1,
    (showSection_unknown_id
      ⟨[⟨"dashboard", ["dashboard-section", "active-section"]⟩, ⟨"tracker", ["dashboard-section"]⟩],
        [0, 1], 5⟩ "settings" (by decide)).2.2.2.2⟩

/-! ## Metrics -/

theorem updateHealthTip_redraw (today : JSDate) (r : Rat) (st : ContentState)
    (tipIndex lastTipDate : JSValue)
    (h1 : getFromLocalStorage st.localStorage "dailyTipIndex" .null = .ok tipIndex)
    (h2 : getFromLocalStorage st.localStorage "lastTipDate" .null = .ok lastTipDate)
    (h : lastTipDate ≠ .str (getTodayDateString today) ∨ tipIndex = .null) :
    updateHealthTip today r st
      = .ok (.num ((⌊r * (healthTips.length : Rat)⌋ : Int) : Rat), redrawn today r st) := by
  have hc : (!(lastTipDate.strictEqString (getTodayDateString today)) || tipIndex.isNull) = true := by
    rcases h with h | h
    · have : lastTipDate.strictEqString (getTodayDateString today) = false := by
        cases hb : lastTipDate.strictEqString (getTodayDateString today) with
        | false => rfl
        | true => exact absurd ((strictEqString_iff _ _).mp hb) h
      simp [this]
    · subst h
      simp [JSValue.isNull]
  simp only [updateHealthTip, h1, h2, hc, if_true]
  rfl

theorem updateHealthTip_keep (today : JSDate) (r : Rat) (st : ContentState)
    (tipIndex : JSValue)
    (h1 : getFromLocalStorage st.localStorage "dailyTipIndex" .null = .ok tipIndex)
    (h2 : getFromLocalStorage st.localStorage "lastTipDate" .null
      = .ok (.str (getTodayDateString today)))
    (h : tipIndex ≠ .null) :
    updateHealthTip today r st
      = .ok (tipIndex, { st with healthTipContent := healthTipText tipIndex }) := by
  have hc : (!((JSValue.str (getTodayDateString today)).strictEqString (getTodayDateString today))
      || tipIndex.isNull) = false := by
    have hn : tipIndex.isNull = false := by
      cases tipIndex <;> simp [JSValue.isNull] at h ⊢
    simp [JSValue.strictEqString, hn]
  simp only [updateHealthTip, h1, h2, hc]
  rfl

theorem redrawn_reads (today : JSDate) (r : Rat) (st : ContentState) :
    getFromLocalStorage (redrawn today r st).localStorage "dailyTipIndex" .null
        = .ok (.num ((⌊r * (healthTips.length : Rat)⌋ : Int) : Rat)) ∧
      getFromLocalStorage (redrawn today r st).localStorage "lastTipDate" .null
        = .ok (.str (getTodayDateString today)) := by
  constructor
  · show getFromLocalStorage (saveToLocalStorage _ "lastTipDate" _) "dailyTipIndex" .null = _
    rw [getFromLocalStorage_save_other _ _ _ _ _ (by decide)]
    exact getFromLocalStorage_save _ _ _ _ (isSerializable_intCast _)
  · exact getFromLocalStorage_save _ _ _ _ (isSerializable_str _)

/-- C5: two calls of `updateHealthTip` in a row on the same calendar date resolve to the
same tip index, whatever the storage held before and whatever the random draws: the
second call finds the index the first one left in the storage (be it `0`), and it leaves
the state as the first call left it, with no further `setItem` call. -/
theorem same_day_same_tip (today : JSDate) (r1 r2 : Rat) (st : ContentState) :
    ∃ (i : JSValue) (st1 : ContentState),
      updateHealthTip today r1 st = .ok (i, st1) ∧
      getFromLocalStorage st1.localStorage "dailyTipIndex" .null = .ok i ∧
      updateHealthTip today r2 st1 = .ok (i, st1) := by
  obtain ⟨tipIndex, h1⟩ := getFromLocalStorage_ok st.localStorage "dailyTipIndex" .null
  obtain ⟨lastTipDate, h2⟩ := getFromLocalStorage_ok st.localStorage "lastTipDate" .null
  by_cases hfresh : lastTipDate = .str (getTodayDateString today) ∧ tipIndex ≠ .null
  · obtain ⟨hd, hn⟩ := hfresh
    subst hd
    refine ⟨tipIndex, { st with healthTipContent := healthTipText tipIndex },
      updateHealthTip_keep today r1 st tipIndex h1 h2 hn, h1, ?_⟩
    exact updateHealthTip_keep today r2 _ tipIndex h1 h2 hn
  · have hstale : lastTipDate ≠ .str (getTodayDateString today) ∨ tipIndex = .null := by
      by_cases hd : lastTipDate = .str (getTodayDateString today)
      · right
        by_contra hn
        exact hfresh ⟨hd, hn⟩
      · left
        exact hd
    obtain ⟨g1, g2⟩ := redrawn_reads today r1 st
    refine ⟨_, redrawn today r1 st, updateHealthTip_redraw today r1 st tipIndex lastTipDate h1 h2 hstale,
      g1, ?_⟩
    exact updateHealthTip_keep today r2 _ _ g1 g2 (by simp)

theorem dvd_ten_pow_self : ∀ d : Nat, 0 < d → (∃ k, d ∣ 10 ^ k) → d ∣ 10 ^ d := by
  intro d
  induction d using Nat.strong_induction_on with
  | _ d ih =>
    intro hd hk
    obtain ⟨k, hk⟩ := hk
    by_cases h1 : d = 1
    · subst h1
      exact one_dvd _
    · obtain ⟨p, hp, hpd⟩ := Nat.exists_prime_and_dvd h1
      have hp10 : p ∣ 10 := hp.dvd_of_dvd_pow (dvd_trans hpd hk)
      obtain ⟨e, he⟩ := hpd
      have he0 : 0 < e := by
        rcases Nat.eq_zero_or_pos e with h | h
        · subst h
          simp at he
          omega
        · exact h
      have hp2 : 2 ≤ p := hp.two_le
      have hlt : e < d := by
        rw [he]
        nlinarith
      have hek : e ∣ 10 ^ k := dvd_trans ⟨p, by rw [he, mul_comm]⟩ hk
      have hee := ih e hlt he0 ⟨k, hek⟩
      have hstep : d ∣ 10 ^ (e + 1) := by
        rw [he, pow_succ, mul_comm p e]
        exact mul_dvd_mul hee hp10
      exact dvd_trans hstep (pow_dvd_pow 10 (by omega))

/-- A number has a numeral exactly when its decimal expansion is finite, that is when its
denominator divides a power of ten (as the denominator of every IEEE double does). -/
theorem decimalScale_isSome_iff (d : Nat) (hd : 0 < d) :
    (decimalScale d).isSome = true ↔ ∃ k, d ∣ 10 ^ k := by
  constructor
  · intro h
    obtain ⟨k, hk⟩ := Option.isSome_iff_exists.mp h
    exact ⟨k, decimalScale_dvd d k hk⟩
  · intro h
    have hdd := dvd_ten_pow_self d hd h
    unfold decimalScale
    rw [List.find?_isSome]
    refine ⟨d, by simp, ?_⟩
    simp only [beq_iff_eq]
    exact Nat.mod_eq_zero_of_dvd hdd

theorem isSerializable_dyadic (z : Int) (n : Nat) :
    (JSValue.num ((z : Rat) / 2 ^ n)).isSerializable = true := by
  simp only [JSValue.isSerializable]
  rw [decimalScale_isSome_iff _ (Rat.den_pos _)]
  refine ⟨n, ?_⟩
  have e : (z : Rat) / 2 ^ n = Rat.divInt z ((2 ^ n : Nat) : Int) := by
    rw [Rat.divInt_eq_div]
    push_cast
    rfl
  have h1 : (((z : Rat) / 2 ^ n).den : Int) ∣ ((2 ^ n : Nat) : Int) := by
    rw [e]
    exact Rat.den_dvd z ((2 ^ n : Nat) : Int)
  have h2 : ((z : Rat) / 2 ^ n).den ∣ 2 ^ n := by exact_mod_cast h1
  exact dvd_trans h2 (pow_dvd_pow_of_dvd (by norm_num) n)

/-! ## Daily tip, on an example -/

end HealthWealth
